import Mathlib

/-!
Shallow embedding of `model/KGAT.py` (KGAT-pytorch).  Model parameters are
exact rationals standing in for the float parameters; transcendental
operations (`tanh`, `exp`, `log`, `sqrt`) are applied at the real-number
boundary.  Tensor entries in the fusion stage are `Option`-valued: `none`
stands for a non-finite float value (NaN/Inf), which arises only from
division by zero and is propagated conservatively by every operation.
-/

namespace KGAT

/-- Python exception classes raised by the modelled code.
`zeroDivisionError` is Python's `ZeroDivisionError` (a subclass of
`ArithmeticError`), `keyError` is `KeyError` (a subclass of `LookupError`),
`notImplementedError` is `NotImplementedError`, `shapeError` stands for the
shape-mismatch `RuntimeError` raised by the tensor library, and `typeError`
for `TypeError`. -/
inductive PyErr where
  | keyError
  | zeroDivisionError
  | notImplementedError
  | shapeError
  | typeError
deriving DecidableEq

/-- Pointwise sum of two rational vectors (torch addition of equal-shape
tensors; the shapes are equal wherever this is used, as torch would raise
otherwise). -/
def vqadd (u v : List ℚ) : List ℚ := List.zipWith (fun a b => a + b) u v

/-- Pointwise difference of two rational vectors. -/
def vqsub (u v : List ℚ) : List ℚ := List.zipWith (fun a b => a - b) u v

/-- Number of columns of a matrix stored as its list of rows. -/
def ncols (W : List (List ℚ)) : Nat := (W.headD []).length

/-- Vector-matrix product `v @ W` (`torch.matmul` of a row vector with a
matrix): the sum of `v i` times row `i` of `W`. -/
def vqmatmul (v : List ℚ) (W : List (List ℚ)) : List ℚ :=
  (v.zip W).foldl (fun acc p => vqadd acc (p.2.map (fun w => p.1 * w)))
    (List.replicate (ncols W) 0)

/-- Dot product of a rational vector with a real vector (the `torch.bmm`
contraction in `att_score`, after `tanh` has produced real entries). -/
noncomputable def qrdot (u : List ℚ) (v : List ℝ) : ℝ :=
  ((u.zip v).map (fun p => (p.1 : ℝ) * p.2)).sum

/-- A directed edge of the DGL graph: source node, destination node and the
relation-type label stored in `edata` as `type`. -/
structure Edge where
  src : Nat
  dst : Nat
  etype : Nat
deriving DecidableEq

/-- The heterogeneous graph.  `nodeIdOf` is the per-node `id` feature
(`ndata`), `edges` the edge list, and `att` the per-edge attention weight
feature (`edata`), stored on the graph by the training loop after
`compute_attention`. -/
structure Graph where
  nNodes : Nat
  nodeIdOf : Nat → Nat
  edges : List Edge
  att : Nat → ℝ

/-- The learnable parameters of `KGAT.__init__` that the modelled methods
read: relation count, entity embedding table, relation embedding table, the
per-relation projection tensor `W_R`, and the two L2 lambdas. -/
structure KGATParams where
  n_relations : Nat
  entityEmbed : Nat → List ℚ
  relationEmbed : Nat → List ℚ
  W_R : Nat → List (List ℚ)
  kg_l2loss_lambda : ℚ
  cf_l2loss_lambda : ℚ

/-- `KGAT.att_score` (KGAT.py lines 131-137) on one edge, given the current
projection matrix `self.W_r`: the score is
`dot(W_r mul tail, tanh(W_r mul head + r_embed))`, where the tail is the
edge's source node, the head is its destination node, and `r_embed` is the
embedding of the edge's own relation label. -/
noncomputable def attScore (ent rel : Nat → List ℚ) (Wr : List (List ℚ))
    (g : Graph) (e : Edge) : ℝ :=
  qrdot (vqmatmul (ent (g.nodeIdOf e.src)) Wr)
    ((vqadd (vqmatmul (ent (g.nodeIdOf e.dst)) Wr) (rel e.etype)).map
      (fun q => Real.tanh (q : ℝ)))

/-- One iteration of the relation loop in `KGAT.compute_attention`
(lines 142-145): set `self.W_r := W_R[i]` and apply `att_score` exactly to
the edges whose `type` equals `i`. -/
noncomputable def attStep (P : KGATParams) (g : Graph)
    (atts : Nat → Option ℝ) (i : Nat) : Nat → Option ℝ := fun k =>
  match g.edges[k]? with
  | some e =>
      if e.etype = i then some (attScore P.entityEmbed P.relationEmbed (P.W_R i) g e)
      else atts k
  | none => atts k

/-- The raw (pre-softmax) per-edge scores written by the relation loop of
`KGAT.compute_attention` (lines 140-145); edge features start unset. -/
noncomputable def rawAtts (P : KGATParams) (g : Graph) : Nat → Option ℝ :=
  (List.range P.n_relations).foldl (attStep P g) (fun _ => none)

/-- Indices of the edges whose destination is node `v`. -/
def inEdges (g : Graph) (v : Nat) : Finset Nat :=
  (Finset.range g.edges.length).filter (fun k => (g.edges[k]?.map Edge.dst) = some v)

/-- Modelled from the spec: `edge_softmax_fix` (imported from
`utility.helper`, which is not among the sources here).  Per spec section
4.1, it is the softmax of the raw edge scores grouped by destination node:
each edge weight is the exponential of its score divided by the sum of the
exponentials over all edges into the same destination. -/
noncomputable def edgeSoftmax (g : Graph) (s : Nat → ℝ) : Nat → ℝ := fun k =>
  match g.edges[k]? with
  | some e => Real.exp (s k) / (inEdges g e.dst).sum (fun j => Real.exp (s j))
  | none => 0

/-- `KGAT.compute_attention` (lines 140-149): per-relation raw scores (an
edge whose feature was never set defaults to zero, as DGL zero-fills
untouched edge features), then the destination-grouped softmax. -/
noncomputable def computeAttention (P : KGATParams) (g : Graph) : Nat → ℝ :=
  edgeSoftmax g (fun k => (rawAtts P g k).getD 0)

/-- Concrete graph for witnesses: three nodes, edges A to C and B to C with
relation 0. -/
def gW : Graph := ⟨3, fun n => n, [⟨0, 2, 0⟩, ⟨1, 2, 0⟩], fun _ => 0⟩

/-- Concrete parameters for witnesses: one relation, one-dimensional
embeddings. -/
def pW : KGATParams := ⟨1, fun n => [(n : ℚ)], fun _ => [1], fun _ => [[1]], 1, 1⟩

/-- One row of a KG training batch: head, relation, positive tail and
negative tail index.  The four index tensors of `calc_kg_loss` share one
batch dimension; a list of rows is the equivalent representation. -/
structure KGRow where
  hIdx : Nat
  rIdx : Nat
  posT : Nat
  negT : Nat
deriving DecidableEq

/-- Zip the four index lists of `calc_kg_loss` into batch rows. -/
def kgRows : List Nat → List Nat → List Nat → List Nat → List KGRow
  | a :: as, b :: bs, c :: cs, d :: ds => ⟨a, b, c, d⟩ :: kgRows as bs cs ds
  | _, _, _, _ => []

/-- Exchange the positive and the negative tail of a batch row. -/
def rowSwap (row : KGRow) : KGRow := ⟨row.hIdx, row.rIdx, row.negT, row.posT⟩

/-- Sum of squared entries of a vector. -/
def sqsum (v : List ℚ) : ℚ := (v.map (fun a => a * a)).sum

/-- `pos_score` of `calc_kg_loss` (line 171): squared distance between
`h W_r + r` and `pos_t W_r` (Equation 1). -/
def posScore (P : KGATParams) (row : KGRow) : ℚ :=
  sqsum (vqsub
    (vqadd (vqmatmul (P.entityEmbed row.hIdx) (P.W_R row.rIdx)) (P.relationEmbed row.rIdx))
    (vqmatmul (P.entityEmbed row.posT) (P.W_R row.rIdx)))

/-- `neg_score` of `calc_kg_loss` (line 172). -/
def negScore (P : KGATParams) (row : KGRow) : ℚ :=
  sqsum (vqsub
    (vqadd (vqmatmul (P.entityEmbed row.hIdx) (P.W_R row.rIdx)) (P.relationEmbed row.rIdx))
    (vqmatmul (P.entityEmbed row.negT) (P.W_R row.rIdx)))

/-- `F.logsigmoid`. -/
noncomputable def logsigmoid (x : ℝ) : ℝ := -Real.log (1 + Real.exp (-x))

/-- `torch.mean` of a rational batch (every batch this is applied to is
nonempty; torch would produce NaN on an empty one). -/
def qmean (l : List ℚ) : ℚ := l.sum / l.length

/-- `torch.mean` of a real batch. -/
noncomputable def rmean (l : List ℝ) : ℝ := l.sum / l.length

/-- `_L2_loss_mean` (lines 10-11): mean over the batch of half the squared
row norm. -/
def l2LossMean (rows : List (List ℚ)) : ℚ := qmean (rows.map (fun v => sqsum v / 2))

/-- `KGAT.calc_kg_loss` (lines 152-180): pairwise logistic loss
`mean(-logsigmoid(neg_score - pos_score))` plus the lambda-scaled L2 term
over the four projected embeddings involved. -/
noncomputable def calcKgLoss (P : KGATParams) (hIds rIds posIds negIds : List Nat) : ℝ :=
  let rows := kgRows hIds rIds posIds negIds
  rmean (rows.map (fun row =>
      -logsigmoid (((negScore P row - posScore P row : ℚ) : ℝ))))
    + (P.kg_l2loss_lambda : ℝ) *
      ((l2LossMean (rows.map (fun row => vqmatmul (P.entityEmbed row.hIdx) (P.W_R row.rIdx)))
        + l2LossMean (rows.map (fun row => P.relationEmbed row.rIdx))
        + l2LossMean (rows.map (fun row => vqmatmul (P.entityEmbed row.posT) (P.W_R row.rIdx)))
        + l2LossMean (rows.map (fun row => vqmatmul (P.entityEmbed row.negT) (P.W_R row.rIdx))) : ℚ) : ℝ)

/-- A Python value that is either a scalar (int/float) or a 1-D tensor.
`sim_user_embed` in `get_user_cf_embed` starts as the Python int `0` and
becomes a tensor on the first loop iteration.  Tensor entries are `none`
when non-finite (NaN/Inf). -/
inductive PyNum (α : Type) where
  | scalar (a : α)
  | tensor (t : List (Option α))
deriving DecidableEq

section Fusion

variable {α : Type} [LinearOrderedField α]

/-- Addition of tensor entries; a non-finite operand poisons the result. -/
def eAdd : Option α → Option α → Option α
  | some a, some b => some (a + b)
  | _, _ => none

/-- Multiplication of tensor entries (in floats, `0 * NaN = NaN`). -/
def eMul : Option α → Option α → Option α
  | some a, some b => some (a * b)
  | _, _ => none

/-- Division of a tensor entry by a scalar: dividing by zero yields a
non-finite float (NaN/Inf), not an exception. -/
def eDiv (x : Option α) (q : α) : Option α :=
  if q = 0 then none else x.map (fun a => a / q)

/-- `torch.sum` over tensor entries. -/
def sumEntries (l : List (Option α)) : Option α := l.foldl eAdd (some 0)

/-- Python `+` on scalar/tensor combinations (a scalar broadcasts). -/
def pyAdd : PyNum α → PyNum α → PyNum α
  | .scalar a, .scalar b => .scalar (a + b)
  | .scalar a, .tensor t => .tensor (t.map (fun e => eAdd (some a) e))
  | .tensor t, .scalar b => .tensor (t.map (fun e => eAdd e (some b)))
  | .tensor t, .tensor u => .tensor (List.zipWith eAdd t u)

/-- Python `*` of a scalar with a scalar or a tensor. -/
def pySMul (q : α) : PyNum α → PyNum α
  | .scalar a => .scalar (q * a)
  | .tensor t => .tensor (t.map (fun e => eMul (some q) e))

/-- Python `/` by a scalar: a scalar divided by zero raises
`ZeroDivisionError`; a tensor divided by zero yields non-finite entries
without raising. -/
def pyDiv (x : PyNum α) (q : α) : Except PyErr (PyNum α) :=
  match x with
  | .scalar a => if q = 0 then .error .zeroDivisionError else .ok (.scalar (a / q))
  | .tensor t => .ok (.tensor (t.map (fun e => eDiv e q)))

/-- Python `dict` subscript: a missing key raises `KeyError`. -/
def lookup {β : Type} (d : Nat → Option β) (k : Nat) : Except PyErr β :=
  match d k with
  | some v => .ok v
  | none => .error .keyError

/-- `KGAT.calk_sim` (lines 271-277): Jaccard similarity of the two
interaction sets; with an empty union the Python int division `inter/all`
raises `ZeroDivisionError`. -/
def calkSim (idx simIdx : Nat) (dict : Nat → Option (List Nat)) :
    Except PyErr α := do
  let staffs ← lookup dict idx
  let staffs2 ← lookup dict simIdx
  let allCard := (staffs.toFinset ∪ staffs2.toFinset).card
  let interCard := (staffs.toFinset ∩ staffs2.toFinset).card
  if allCard = 0 then .error .zeroDivisionError
  else .ok ((interCard : α) / (allCard : α))

/-- `KGAT.get_user_kg_embed` (lines 212-226), single-id (`np.float64`)
branch: gather the rows of the interacted items, sum them (torch sums an
empty gather to a zero row of the table width `D`), and divide by the list
length (a zero length yields non-finite entries, not an exception). -/
def getUserKgEmbedOne (embed : Nat → List (Option α)) (D : Nat) (uid : Nat)
    (userDict : Nat → Option (List Nat)) : Except PyErr (List (Option α)) := do
  let items ← lookup userDict uid
  let s := items.foldl (fun acc i => List.zipWith eAdd acc (embed i))
    (List.replicate D (some 0))
  pure (s.map (fun e => eDiv e (items.length : α)))

/-- Per-user body of the loop in `KGAT.get_user_cf_embed` (lines 228-242):
`sim_user_embed` starts as the Python int `0`, accumulates
`sim * kg_embed` over the similarity neighbors, and is divided by the
accumulated weight `norm`. -/
def getUserCfEmbedOne (embed : Nat → List (Option α)) (D : Nat) (uid : Nat)
    (userDict simUserDict : Nat → Option (List Nat)) : Except PyErr (PyNum α) := do
  let nbrs ← lookup simUserDict uid
  let p ← nbrs.foldlM
    (fun (p : PyNum α × α) w => do
      let sim ← calkSim uid w userDict
      let kg ← getUserKgEmbedOne embed D w userDict
      pure (pyAdd p.1 (pySMul sim (PyNum.tensor kg)), p.2 + sim))
    (PyNum.scalar 0, (0 : α))
  pyDiv p.1 p.2

/-- Per-item body of the loop in `KGAT.get_item_embed` (lines 253-261):
like the user loop, but the neighbor contribution is the neighbor's own
multi-scale row `all_embed[sim_item]`. -/
def getItemCfEmbedOne (embed : Nat → List (Option α)) (iid : Nat)
    (itemDict simItemDict : Nat → Option (List Nat)) : Except PyErr (PyNum α) := do
  let nbrs ← lookup simItemDict iid
  let p ← nbrs.foldlM
    (fun (p : PyNum α × α) w => do
      let sim ← calkSim iid w itemDict
      pure (pyAdd p.1 (pySMul sim (PyNum.tensor (embed w))), p.2 + sim))
    (PyNum.scalar 0, (0 : α))
  pyDiv p.1 p.2

/-- Weights of `user_encoder` / `item_encoder`: two bias-free linear
layers `Linear(176*2, 176)` and `Linear(176, 176)` (KGAT.__init__ lines
111-129); the widths are fixed literals in the source, independent of the
configured dimensions. -/
structure TwoLayerEnc (α : Type) where
  W1 : Nat → Nat → α
  W2 : Nat → Nat → α

/-- `nn.Linear(inD, outD, bias=False)` on one row, with the shape check the
tensor library performs. -/
def linearNB (inD outD : Nat) (W : Nat → Nat → α) (x : List (Option α)) :
    Except PyErr (List (Option α)) :=
  if x.length = inD then
    .ok ((List.range outD).map (fun i =>
      sumEntries ((List.range inD).map (fun j => eMul (some (W i j)) (x.getD j none)))))
  else .error .shapeError

/-- `nn.ReLU` on one row (a non-finite entry stays non-finite). -/
def reluT (t : List (Option α)) : List (Option α) :=
  t.map (Option.map (fun a => max a 0))

/-- The encoder stack
`Linear(176*2, 176) → ReLU → Linear(176, 176) → ReLU`. -/
def encApply (E : TwoLayerEnc α) (x : List (Option α)) :
    Except PyErr (List (Option α)) := do
  let y ← linearNB (176 * 2) 176 E.W1 x
  let z ← linearNB 176 176 E.W2 (reluT y)
  pure (reluT z)

/-- `KGAT.get_user_kg_embed`, batch branch: one KG-context row per user. -/
def getUserKgEmbed (embed : Nat → List (Option α)) (D : Nat) (userIds : List Nat)
    (userDict : Nat → Option (List Nat)) : Except PyErr (List (List (Option α))) :=
  userIds.mapM (fun uid => getUserKgEmbedOne embed D uid userDict)

/-- `KGAT.get_user_cf_embed`: one CF-context value per user. -/
def getUserCfEmbed (embed : Nat → List (Option α)) (D : Nat) (userIds : List Nat)
    (userDict simUserDict : Nat → Option (List Nat)) :
    Except PyErr (List (PyNum α)) :=
  userIds.mapM (fun uid => getUserCfEmbedOne embed D uid userDict simUserDict)

/-- `torch.cat((kg_row, cf_row), dim=-1)`; a zero-dimensional `cf_row`
cannot be concatenated. -/
def catLast (t : List (Option α)) : PyNum α → Except PyErr (List (Option α))
  | .tensor u => .ok (t ++ u)
  | .scalar _ => .error .typeError

/-- `KGAT.get_user_embed` (lines 244-249): concatenate the KG-context and
CF-context rows and push them through `user_encoder`. -/
def getUserEmbed (embed : Nat → List (Option α)) (D : Nat) (userIds : List Nat)
    (userDict simUserDict : Nat → Option (List Nat)) (E : TwoLayerEnc α) :
    Except PyErr (List (List (Option α))) := do
  let kg ← getUserKgEmbed embed D userIds userDict
  let cf ← getUserCfEmbed embed D userIds userDict simUserDict
  let rows ← (kg.zip cf).mapM (fun p => catLast p.1 p.2)
  rows.mapM (fun row => encApply E row)

/-- `KGAT.get_item_embed` (lines 251-269): the item's own multi-scale row
concatenated with the similarity-weighted neighbor blend, through
`item_encoder`. -/
def getItemEmbed (embed : Nat → List (Option α)) (itemIds : List Nat)
    (simItemDict itemDict : Nat → Option (List Nat)) (E : TwoLayerEnc α) :
    Except PyErr (List (List (Option α))) := do
  let kg := itemIds.map embed
  let cf ← itemIds.mapM (fun iid => getItemCfEmbedOne embed iid itemDict simItemDict)
  let rows ← (kg.zip cf).mapM (fun p => catLast p.1 p.2)
  rows.mapM (fun row => encApply E row)

/-- The value `calk_sim` returns when it succeeds, as a pure function of
the dictionary. -/
def simVal (idx w : Nat) (dict : Nat → Option (List Nat)) : α :=
  ((((dict idx).getD []).toFinset ∩ ((dict w).getD []).toFinset).card : α)
    / ((((dict idx).getD []).toFinset ∪ ((dict w).getD []).toFinset).card : α)

/-- The final value of the loop accumulator `norm`. -/
def simSum (idx : Nat) (nbrs : List Nat) (dict : Nat → Option (List Nat)) : α :=
  (nbrs.map (fun w => simVal idx w dict)).sum

end Fusion

/-- Embedding table for fusion counterexamples and witnesses (width 1). -/
def embedC : Nat → List (Option ℚ) := fun n => if n = 2 then [some 7] else [some 3]

/-- Interaction dictionary: user 0 interacted with item 1, user 1 with
item 2 (disjoint interaction sets). -/
def udC : Nat → Option (List Nat) := fun n =>
  if n = 0 then some [1] else if n = 1 then some [2] else none

/-- Similarity table: user 0 has the single similarity neighbor 1. -/
def sdC : Nat → Option (List Nat) := fun n => if n = 0 then some [1] else none

/-- Interaction dictionary with overlap: users 0 and 1 both interacted
with item 5. -/
def udC2 : Nat → Option (List Nat) := fun n => if n ≤ 1 then some [5] else none

/-- Width-1 embedding table with constant finite rows. -/
def embedW5 : Nat → List (Option ℚ) := fun _ => [some 5]

/-- Dictionary holding only key 0, with an empty list. -/
def dictW5 : Nat → Option (List Nat) := fun n => if n = 0 then some [] else none

/-- Similarity table where every id has an empty neighbor list. -/
def sdEmpty : Nat → Option (List Nat) := fun _ => some []

/-- The weight record of one `nn.Linear` layer (bias is the default). -/
structure Lin where
  W : Nat → Nat → ℚ
  b : Nat → ℚ

/-- The linear layers an aggregator owns, depending on its scheme. -/
inductive AggWeights where
  | gcn (L : Lin)
  | graphsage (L : Lin)
  | biInteraction (L1 L2 : Lin)

/-- One `Aggregator` module (the fields set by `Aggregator.__init__`). -/
structure Aggregator where
  in_dim : Nat
  out_dim : Nat
  dropout : ℚ
  aggregator_type : String
  weights : AggWeights

/-- `Aggregator.__init__` (lines 16-35): store the configuration and create
the scheme's linear layers (`gcn` gets `Linear(in_dim, out_dim)`,
`graphsage` gets `Linear(in_dim*2, out_dim)`, `bi-interaction` two
`Linear(in_dim, out_dim)`), the random xavier initial values being supplied
by the caller as `w1 b1 w2 b2`; any other scheme name raises
`NotImplementedError` before any layer exists. -/
def mkAggregator (in_dim out_dim : Nat) (dropout : ℚ) (aggregator_type : String)
    (w1 : Nat → Nat → ℚ) (b1 : Nat → ℚ) (w2 : Nat → Nat → ℚ) (b2 : Nat → ℚ) :
    Except PyErr Aggregator :=
  if aggregator_type = "gcn" then
    .ok ⟨in_dim, out_dim, dropout, aggregator_type, .gcn ⟨w1, b1⟩⟩
  else if aggregator_type = "graphsage" then
    .ok ⟨in_dim, out_dim, dropout, aggregator_type, .graphsage ⟨w1, b1⟩⟩
  else if aggregator_type = "bi-interaction" then
    .ok ⟨in_dim, out_dim, dropout, aggregator_type, .biInteraction ⟨w1, b1⟩ ⟨w2, b2⟩⟩
  else .error .notImplementedError

/-- Row of a real node-feature table. -/
def rowAt (rows : List (List ℝ)) (n : Nat) : List ℝ := rows.getD n []

/-- Pointwise sum of real rows. -/
def vradd (u v : List ℝ) : List ℝ := List.zipWith (fun a b => a + b) u v

/-- Pointwise product of real rows. -/
def vrmul (u v : List ℝ) : List ℝ := List.zipWith (fun a b => a * b) u v

/-- `nn.LeakyReLU()` (default negative slope 1/100). -/
noncomputable def leakyReLU (x : ℝ) : ℝ := if x < 0 then x / 100 else x

/-- `nn.Linear(inD, outD)` with bias on one real row, with the shape check
the tensor library performs. -/
noncomputable def linB (inD outD : Nat) (L : Lin) (x : List ℝ) :
    Except PyErr (List ℝ) :=
  if x.length = inD then
    .ok ((List.range outD).map (fun i =>
      (L.b i : ℝ) + ((List.range inD).map (fun j => (L.W i j : ℝ) * x.getD j 0)).sum))
  else .error .shapeError

/-- Edge at index `k` of the edge list. -/
def edgeAt (g : Graph) (k : Nat) : Edge := g.edges.getD k ⟨0, 0, 0⟩

/-- The message-passing step of `Aggregator.forward` (lines 47-50):
`u_mul_e('node', 'att', 'side')` followed by the per-destination sum of the
mailbox.  The predict branch and the train branch compute the same sum;
they differ only in floating-point accumulation order on the device. -/
noncomputable def nbrSum (g : Graph) (rows : List (List ℝ)) (dim : Nat) (v : Nat) :
    List ℝ :=
  ((List.range g.edges.length).filter (fun k => (edgeAt g k).dst = v)).foldl
    (fun acc k => vradd acc ((rowAt rows (edgeAt g k).src).map (fun a => g.att k * a)))
    (List.replicate dim 0)

/-- `Aggregator.forward` (lines 38-69); message dropout is the identity in
the deterministic (evaluation) semantics modelled here. -/
noncomputable def aggForward (A : Aggregator) (mode : String) (g : Graph)
    (rows : List (List ℝ)) : Except PyErr (List (List ℝ)) :=
  let nh := (List.range g.nNodes).map (fun v => nbrSum g rows A.in_dim v)
  match A.weights with
  | .gcn L =>
      (List.range g.nNodes).mapM (fun v => do
        let y ← linB A.in_dim A.out_dim L (vradd (rowAt rows v) (rowAt nh v))
        pure (y.map leakyReLU))
  | .graphsage L =>
      (List.range g.nNodes).mapM (fun v => do
        let y ← linB (A.in_dim * 2) A.out_dim L (rowAt rows v ++ rowAt nh v)
        pure (y.map leakyReLU))
  | .biInteraction L1 L2 =>
      (List.range g.nNodes).mapM (fun v => do
        let y1 ← linB A.in_dim A.out_dim L1 (vradd (rowAt rows v) (rowAt nh v))
        let y2 ← linB A.in_dim A.out_dim L2 (vrmul (rowAt rows v) (rowAt nh v))
        pure (vradd (y1.map leakyReLU) (y2.map leakyReLU)))

/-- `F.normalize(x, p=2, dim=1)`: divide by `max(norm, 1e-12)`. -/
noncomputable def l2normalize (x : List ℝ) : List ℝ :=
  x.map (fun a => a / max (Real.sqrt ((x.map (fun b => b * b)).sum)) (1 / 10 ^ 12))

/-- `KGAT.cf_embedding` (lines 183-195): propagate through the aggregator
stack, L2-normalizing each layer output and concatenating all of them to
the initial embedding (Equation 11). -/
noncomputable def cfEmbedding (entEmbed : Nat → List ℚ) (layers : List Aggregator)
    (mode : String) (g : Graph) : Except PyErr (List (List ℝ)) := do
  let ego0 := (List.range g.nNodes).map
    (fun v => (entEmbed (g.nodeIdOf v)).map (fun q => (q : ℝ)))
  let p ← layers.foldlM
    (fun (p : List (List ℝ) × List (List ℝ)) layer => do
      let ego ← aggForward layer mode g p.2
      let normed := ego.map l2normalize
      pure ((p.1.zip normed).map (fun q => q.1 ++ q.2), ego))
    (ego0, ego0)
  pure p.1

/-- The whole model: parameters, aggregator stack and the two fusion
encoders. -/
structure KGATModel where
  params : KGATParams
  layers : List Aggregator
  userEnc : TwoLayerEnc ℚ
  itemEnc : TwoLayerEnc ℚ

/-- The encoder weights as reals. -/
def liftEnc (E : TwoLayerEnc ℚ) : TwoLayerEnc ℝ :=
  ⟨fun i j => (E.W1 i j : ℝ), fun i j => (E.W2 i j : ℝ)⟩

/-- `F.logsigmoid` on a tensor entry. -/
noncomputable def elogsigmoid (e : Option ℝ) : Option ℝ := e.map logsigmoid

/-- Negation of a tensor entry. -/
def eNeg (e : Option ℝ) : Option ℝ := e.map (fun a => -a)

/-- Difference of tensor entries. -/
def eSub : Option ℝ → Option ℝ → Option ℝ
  | some a, some b => some (a - b)
  | _, _ => none

/-- `torch.mean` over tensor entries (an empty batch yields NaN). -/
noncomputable def emean (l : List (Option ℝ)) : Option ℝ :=
  eDiv (sumEntries l) (l.length : ℝ)

/-- `_L2_loss_mean` on rows with possibly non-finite entries. -/
noncomputable def l2LossMeanT (rows : List (List (Option ℝ))) : Option ℝ :=
  emean (rows.map (fun r => eDiv (sumEntries (r.map (fun e => eMul e e))) 2))

/-- `KGAT.calc_cf_loss` (lines 280-303): BPR-style pairwise logistic loss
of fused user/item embeddings plus the lambda-scaled L2 term. -/
noncomputable def calcCfLoss (M : KGATModel) (mode : String) (g : Graph)
    (userIds itemPosIds itemNegIds : List Nat)
    (userDict simUserDict itemDict simItemDict : Nat → Option (List Nat)) :
    Except PyErr (Option ℝ) := do
  let allRows ← cfEmbedding M.params.entityEmbed M.layers mode g
  let embedF := fun n => (rowAt allRows n).map some
  let D := (allRows.headD []).length
  let userE ← getUserEmbed embedF D userIds userDict simUserDict (liftEnc M.userEnc)
  let posE ← getItemEmbed embedF itemPosIds simItemDict itemDict (liftEnc M.itemEnc)
  let negE ← getItemEmbed embedF itemNegIds simItemDict itemDict (liftEnc M.itemEnc)
  let posS := (userE.zip posE).map (fun p => sumEntries (List.zipWith eMul p.1 p.2))
  let negS := (userE.zip negE).map (fun p => sumEntries (List.zipWith eMul p.1 p.2))
  let cfl := emean ((posS.zip negS).map (fun p => eNeg (elogsigmoid (eSub p.1 p.2))))
  let l2 := eAdd (eAdd (l2LossMeanT userE) (l2LossMeanT posE)) (l2LossMeanT negE)
  pure (eAdd cfl (eMul (some ((M.params.cf_l2loss_lambda : ℚ) : ℝ)) l2))

/-- `KGAT.cf_score` (lines 198-210): the score matrix of fused user rows
against fused item rows (Equation 12). -/
noncomputable def cfScore (M : KGATModel) (mode : String) (g : Graph)
    (userIds itemIds : List Nat)
    (userDict simUserDict simItemDict itemDict : Nat → Option (List Nat)) :
    Except PyErr (List (List (Option ℝ))) := do
  let allRows ← cfEmbedding M.params.entityEmbed M.layers mode g
  let embedF := fun n => (rowAt allRows n).map some
  let D := (allRows.headD []).length
  let userE ← getUserEmbed embedF D userIds userDict simUserDict (liftEnc M.userEnc)
  let itemE ← getItemEmbed embedF itemIds simItemDict itemDict (liftEnc M.itemEnc)
  pure (userE.map (fun u => itemE.map (fun t => sumEntries (List.zipWith eMul u t))))

/-- The `*input` tuple of `KGAT.forward`, one constructor per mode. -/
inductive KGATIn where
  | attIn (g : Graph)
  | cfLossIn (g : Graph) (userIds itemPosIds itemNegIds : List Nat)
      (userDict simUserDict itemDict simItemDict : Nat → Option (List Nat))
  | kgLossIn (hIds rIds posIds negIds : List Nat)
  | predictIn (g : Graph) (userIds itemIds : List Nat)
      (userDict simUserDict simItemDict itemDict : Nat → Option (List Nat))

/-- The possible results of `KGAT.forward`. -/
inductive KGATOut where
  | attOut (w : Nat → ℝ)
  | kgLossOut (x : ℝ)
  | cfLossOut (x : Option ℝ)
  | scoreOut (m : List (List (Option ℝ)))

/-- `KGAT.forward` (lines 306-315): dispatch on the mode string; a mode
outside the four known ones falls through every `if` and the method
returns Python `None`.  A branch handed a tuple of the wrong shape raises
`TypeError`, as Python argument unpacking would. -/
noncomputable def forward (M : KGATModel) (mode : String) (input : KGATIn) :
    Option (Except PyErr KGATOut) :=
  if mode = "calc_att" then
    some (match input with
      | .attIn g => .ok (.attOut (computeAttention M.params g))
      | _ => .error .typeError)
  else if mode = "calc_cf_loss" then
    some (match input with
      | .cfLossIn g us ps ns ud sud itd sitd =>
          (calcCfLoss M mode g us ps ns ud sud itd sitd).map KGATOut.cfLossOut
      | _ => .error .typeError)
  else if mode = "calc_kg_loss" then
    some (match input with
      | .kgLossIn a b c d => .ok (.kgLossOut (calcKgLoss M.params a b c d))
      | _ => .error .typeError)
  else if mode = "predict" then
    some (match input with
      | .predictIn g us items ud sud sid itd =>
          (cfScore M mode g us items ud sud sid itd).map KGATOut.scoreOut
      | _ => .error .typeError)
  else none

/-- Concrete model for witnesses. -/
def mW : KGATModel :=
  ⟨pW, [], ⟨fun _ _ => 0, fun _ _ => 0⟩, ⟨fun _ _ => 0, fun _ _ => 0⟩⟩

/-- Whether an `Except` value is a success. -/
def okBool {β : Type} : Except PyErr β → Bool
  | .ok _ => true
  | .error _ => false

/-- Concrete encoder weights for witnesses. -/
def encW : TwoLayerEnc ℚ := ⟨fun _ _ => 1, fun _ _ => 1⟩

/-- Concrete embedding table with rows of width 176. -/
def embedN : Nat → List (Option ℚ) := fun _ => List.replicate 176 (some 1)

/-- Concrete interaction dictionary: ids 0 and 1 both map to `[3]`. -/
def udN : Nat → Option (List Nat) := fun n => if n ≤ 1 then some [3] else none

/-- Concrete similarity table: id 0 has the single neighbor 1. -/
def sdN : Nat → Option (List Nat) := fun n => if n = 0 then some [1] else none

theorem attStep_fold (P : KGATParams) (g : Graph) (k : Nat) (e : Edge)
    (he : g.edges[k]? = some e) (n : Nat) :
    ((List.range n).foldl (attStep P g) (fun _ => none)) k
      = if e.etype < n then
          some (attScore P.entityEmbed P.relationEmbed (P.W_R e.etype) g e)
        else none := by
  induction n with
  | zero => simp
  | succ m ih =>
      rw [List.range_succ, List.foldl_append, List.foldl_cons, List.foldl_nil]
      set prev := List.foldl (attStep P g) (fun _ => none) (List.range m) with hprev
      show attStep P g prev m k = _
      unfold attStep
      rw [he]
      by_cases hem : e.etype = m
      · subst hem
        simp
      · have hlt : e.etype < m + 1 ↔ e.etype < m := by omega
        simp only [if_neg hem, ih, hlt]

/-- C2: for every edge whose relation label is below `n_relations`, the
relation loop of `compute_attention` assigns it the raw score
`dot(W_r mul tail_embedding, tanh(W_r mul head_embedding + r_embed))`,
where the tail is the edge's source node, the head is its destination node,
and `W_r`, `r_embed` belong to the edge's own relation label — before the
per-destination softmax normalization. -/
theorem raw_att_formula (P : KGATParams) (g : Graph) (k : Nat) (e : Edge)
    (he : g.edges[k]? = some e) (hr : e.etype < P.n_relations) :
    rawAtts P g k
      = some (qrdot (vqmatmul (P.entityEmbed (g.nodeIdOf e.src)) (P.W_R e.etype))
          ((vqadd (vqmatmul (P.entityEmbed (g.nodeIdOf e.dst)) (P.W_R e.etype))
              (P.relationEmbed e.etype)).map (fun q => Real.tanh (q : ℝ)))) := by
  unfold rawAtts
  rw [attStep_fold P g k e he P.n_relations, if_pos hr]
  rfl

/-- C1: after `compute_attention`, the attention weights on the incoming
edges of any destination node with at least one incoming edge sum to
exactly 1 (hence in particular within the stated tolerance): the
per-destination softmax is a probability distribution over in-edges. -/
theorem att_sums_to_one (P : KGATParams) (g : Graph) (v : Nat)
    (h : (inEdges g v).Nonempty) :
    (inEdges g v).sum (fun k => computeAttention P g k) = 1 := by
  classical
  have hpos : 0 < (inEdges g v).sum
      (fun j => Real.exp ((rawAtts P g j).getD 0)) :=
    Finset.sum_pos (fun j _ => Real.exp_pos _) h
  have hterm : ∀ k ∈ inEdges g v,
      computeAttention P g k
        = Real.exp ((rawAtts P g k).getD 0)
            / (inEdges g v).sum (fun j => Real.exp ((rawAtts P g j).getD 0)) := by
    intro k hk
    have hk2 := (Finset.mem_filter.mp hk).2
    obtain ⟨e, he⟩ : ∃ e, g.edges[k]? = some e := by
      cases hcase : g.edges[k]? with
      | some e => exact ⟨e, rfl⟩
      | none => rw [hcase] at hk2; simp at hk2
    have hdst : e.dst = v := by
      rw [he] at hk2
      simpa using hk2
    simp only [computeAttention, edgeSoftmax, he, hdst]
  rw [Finset.sum_congr rfl hterm, ← Finset.sum_div]
  exact div_self (ne_of_gt hpos)

theorem att_sums_to_one_witness :
    0 ∈ inEdges gW 2 ∧
      (inEdges gW 2).sum (fun k => computeAttention pW gW k) = 1 :=
  ⟨by decide, att_sums_to_one pW gW 2 ⟨0, by decide⟩⟩

theorem raw_att_formula_witness :
    gW.edges[0]? = some ⟨0, 2, 0⟩ ∧ 0 < pW.n_relations ∧
      rawAtts pW gW 0
        = some (qrdot (vqmatmul (pW.entityEmbed (gW.nodeIdOf 0)) (pW.W_R 0))
            ((vqadd (vqmatmul (pW.entityEmbed (gW.nodeIdOf 2)) (pW.W_R 0))
                (pW.relationEmbed 0)).map (fun q => Real.tanh (q : ℝ)))) :=
  ⟨rfl, by decide, raw_att_formula pW gW 0 ⟨0, 2, 0⟩ rfl (by decide)⟩

theorem kgRowsA (b c d : List Nat) : kgRows [] b c d = [] := by
  cases b <;> cases c <;> cases d <;> rfl

theorem kgRowsB (a : Nat) (as c d : List Nat) : kgRows (a :: as) [] c d = [] := by
  cases c <;> cases d <;> rfl

theorem kgRowsC (a b : Nat) (as bs d : List Nat) : kgRows (a :: as) (b :: bs) [] d = [] := by
  cases d <;> rfl

theorem kgRowsD (a b c : Nat) (as bs cs : List Nat) :
    kgRows (a :: as) (b :: bs) (c :: cs) [] = [] := rfl

theorem kgRowsE (a b c d : Nat) (as bs cs ds : List Nat) :
    kgRows (a :: as) (b :: bs) (c :: cs) (d :: ds) = ⟨a, b, c, d⟩ :: kgRows as bs cs ds := rfl

theorem kgRows_swap (a b c d : List Nat) :
    kgRows a b d c = (kgRows a b c d).map rowSwap := by
  induction a generalizing b c d with
  | nil => rw [kgRowsA, kgRowsA]; rfl
  | cons x xs ih =>
      cases b with
      | nil => rw [kgRowsB, kgRowsB]; rfl
      | cons y ys =>
          cases c with
          | nil =>
              cases d with
              | nil => rfl
              | cons w ws => rw [kgRowsD, kgRowsC]; rfl
          | cons z zs =>
              cases d with
              | nil => rw [kgRowsC, kgRowsD]; rfl
              | cons w ws =>
                  rw [kgRowsE, kgRowsE, List.map_cons, ih]
                  rfl

theorem logsigmoid_strict_mono (x y : ℝ) (hxy : x < y) :
    logsigmoid x < logsigmoid y := by
  unfold logsigmoid
  have h1 : Real.exp (-y) < Real.exp (-x) := Real.exp_lt_exp.mpr (by linarith)
  have h2 : (0 : ℝ) < 1 + Real.exp (-y) := by positivity
  have h3 : Real.log (1 + Real.exp (-y)) < Real.log (1 + Real.exp (-x)) :=
    Real.log_lt_log h2 (by linarith)
  linarith

theorem map_sum_lt {β : Type} (l : List β) (f g : β → ℝ) (hne : l ≠ [])
    (hlt : ∀ b ∈ l, f b < g b) : (l.map f).sum < (l.map g).sum := by
  induction l with
  | nil => exact absurd rfl hne
  | cons x xs ih =>
      simp only [List.map_cons, List.sum_cons]
      cases xs with
      | nil =>
          simp only [List.map_nil, List.sum_nil]
          have := hlt x (by simp)
          linarith
      | cons y ys =>
          have h1 := ih (by simp) (fun b hb => hlt b (List.mem_cons_of_mem _ hb))
          have h2 := hlt x (by simp)
          linarith

/-- C7: when every batch element has its positive translational score
strictly below its negative score, `calc_kg_loss(h, r, pos_t, neg_t)` is
strictly below `calc_kg_loss(h, r, neg_t, pos_t)` (positive and negative
tails swapped), all else equal. -/
theorem calc_kg_loss_swap (P : KGATParams) (hIds rIds posIds negIds : List Nat)
    (hne : kgRows hIds rIds posIds negIds ≠ [])
    (hlt : ∀ row ∈ kgRows hIds rIds posIds negIds, posScore P row < negScore P row) :
    calcKgLoss P hIds rIds posIds negIds < calcKgLoss P hIds rIds negIds posIds := by
  simp only [calcKgLoss]
  rw [kgRows_swap hIds rIds posIds negIds]
  set rows := kgRows hIds rIds posIds negIds with hrows
  have ekg : (rows.map rowSwap).map (fun row =>
        -logsigmoid (((negScore P row - posScore P row : ℚ) : ℝ)))
      = rows.map (fun row =>
        -logsigmoid (((posScore P row - negScore P row : ℚ) : ℝ))) := by
    rw [List.map_map]; rfl
  have e1 : (rows.map rowSwap).map (fun row => vqmatmul (P.entityEmbed row.hIdx) (P.W_R row.rIdx))
      = rows.map (fun row => vqmatmul (P.entityEmbed row.hIdx) (P.W_R row.rIdx)) := by
    rw [List.map_map]; rfl
  have e2 : (rows.map rowSwap).map (fun row => P.relationEmbed row.rIdx)
      = rows.map (fun row => P.relationEmbed row.rIdx) := by
    rw [List.map_map]; rfl
  have e3 : (rows.map rowSwap).map (fun row => vqmatmul (P.entityEmbed row.posT) (P.W_R row.rIdx))
      = rows.map (fun row => vqmatmul (P.entityEmbed row.negT) (P.W_R row.rIdx)) := by
    rw [List.map_map]; rfl
  have e4 : (rows.map rowSwap).map (fun row => vqmatmul (P.entityEmbed row.negT) (P.W_R row.rIdx))
      = rows.map (fun row => vqmatmul (P.entityEmbed row.posT) (P.W_R row.rIdx)) := by
    rw [List.map_map]; rfl
  rw [ekg, e1, e2, e3, e4]
  set t1 := l2LossMean (rows.map (fun row => vqmatmul (P.entityEmbed row.hIdx) (P.W_R row.rIdx)))
  set t2 := l2LossMean (rows.map (fun row => P.relationEmbed row.rIdx))
  set t3 := l2LossMean (rows.map (fun row => vqmatmul (P.entityEmbed row.posT) (P.W_R row.rIdx)))
  set t4 := l2LossMean (rows.map (fun row => vqmatmul (P.entityEmbed row.negT) (P.W_R row.rIdx)))
  have hl2 : ((t1 + t2 + t4 + t3 : ℚ) : ℝ) = ((t1 + t2 + t3 + t4 : ℚ) : ℝ) := by
    push_cast
    ring
  rw [hl2]
  have hsum : (rows.map (fun row =>
        -logsigmoid (((negScore P row - posScore P row : ℚ) : ℝ)))).sum
      < (rows.map (fun row =>
        -logsigmoid (((posScore P row - negScore P row : ℚ) : ℝ)))).sum := by
    refine map_sum_lt rows _ _ hne (fun row hrow => ?_)
    have h1 : posScore P row < negScore P row := hlt row hrow
    have h2 : ((posScore P row - negScore P row : ℚ) : ℝ)
        < ((negScore P row - posScore P row : ℚ) : ℝ) := by
      have : (posScore P row - negScore P row : ℚ)
          < (negScore P row - posScore P row : ℚ) := by linarith
      exact_mod_cast this
    have h3 := logsigmoid_strict_mono _ _ h2
    linarith
  have hmean : rmean (rows.map (fun row =>
        -logsigmoid (((negScore P row - posScore P row : ℚ) : ℝ))))
      < rmean (rows.map (fun row =>
        -logsigmoid (((posScore P row - negScore P row : ℚ) : ℝ)))) := by
    unfold rmean
    rw [List.length_map, List.length_map]
    have hlen : 0 < (rows.length : ℝ) := by
      have := List.length_pos.mpr hne
      exact_mod_cast this
    exact div_lt_div_of_pos_right hsum hlen
  exact add_lt_add_right hmean _

theorem calc_kg_loss_swap_witness :
    posScore pW ⟨0, 0, 1, 2⟩ < negScore pW ⟨0, 0, 1, 2⟩ ∧
      calcKgLoss pW [0] [0] [1] [2] < calcKgLoss pW [0] [0] [2] [1] :=
  ⟨by norm_num [posScore, negScore, sqsum, vqsub, vqadd, vqmatmul, ncols, pW],
    calc_kg_loss_swap pW [0] [0] [1] [2] (by decide)
      (by
        intro row hrow
        simp only [show kgRows [0] [0] [1] [2] = [⟨0, 0, 1, 2⟩] from rfl,
          List.mem_singleton] at hrow
        subst hrow
        norm_num [posScore, negScore, sqsum, vqsub, vqadd, vqmatmul, ncols, pW])⟩

theorem bind_ok_eq {β γ : Type} (x : β) (f : β → Except PyErr γ) :
    (Except.ok x >>= f : Except PyErr γ) = f x := rfl

theorem pure_ok_eq {β : Type} (x : β) : (pure x : Except PyErr β) = .ok x := rfl

theorem map_id_of_eq {β : Type} (f : β → β) (l : List β) (h : ∀ x, f x = x) :
    l.map f = l := by
  induction l with
  | nil => rfl
  | cons x xs ih => simp [h x, ih]

/-- C4: with an empty similarity-neighbor list both loop accumulators stay
the Python int `0`, and the final scalar division `0 / 0` raises
`ZeroDivisionError` (an `ArithmeticError`) instead of returning NaN — for
the user CF-context loop and the item CF-context loop alike. -/
theorem cf_embed_empty_neighbors (embed : Nat → List (Option ℚ)) (D uid iid : Nat)
    (userDict simUserDict itemDict simItemDict : Nat → Option (List Nat))
    (hu : simUserDict uid = some []) (hi : simItemDict iid = some []) :
    getUserCfEmbedOne embed D uid userDict simUserDict = .error .zeroDivisionError ∧
      getItemCfEmbedOne embed iid itemDict simItemDict = .error .zeroDivisionError := by
  constructor
  · simp [getUserCfEmbedOne, lookup, hu, bind_ok_eq, pure_ok_eq, pyDiv]
  · simp [getItemCfEmbedOne, lookup, hi, bind_ok_eq, pure_ok_eq, pyDiv]

theorem cf_embed_empty_neighbors_witness :
    sdEmpty 0 = some [] ∧
      (getUserCfEmbedOne embedW5 1 0 dictW5 sdEmpty = .error .zeroDivisionError ∧
        getItemCfEmbedOne embedW5 0 dictW5 sdEmpty = .error .zeroDivisionError) :=
  ⟨rfl, cf_embed_empty_neighbors embedW5 1 0 0 dictW5 sdEmpty dictW5 sdEmpty rfl rfl⟩

/-- C5 counterexample: user 0 is present in the dictionary with an empty
interaction list, and `get_user_kg_embed` does not raise any `LookupError`:
the division by the zero length is performed on a tensor and returns a
non-finite (NaN) row. -/
theorem user_kg_embed_empty_counterexample :
    getUserKgEmbedOne embedW5 1 0 dictW5 = .ok [none] := by
  simp [getUserKgEmbedOne, lookup, dictW5, bind_ok_eq, pure_ok_eq, eDiv,
    List.replicate]

/-- C5 amended: `get_user_kg_embed` raises `KeyError` (a `LookupError`)
when the user id is absent from the interaction dictionary; when the id is
present with an empty interaction list, the division by the zero list
length is performed anyway and yields a row of non-finite (NaN) values
instead of failing. -/
theorem user_kg_embed_lookup (embed : Nat → List (Option ℚ)) (D : Nat)
    (userDict : Nat → Option (List Nat)) (uidA uidE : Nat)
    (hA : userDict uidA = none) (hE : userDict uidE = some []) :
    getUserKgEmbedOne embed D uidA userDict = .error .keyError ∧
      getUserKgEmbedOne embed D uidE userDict = .ok (List.replicate D none) := by
  constructor
  · simp [getUserKgEmbedOne, lookup, hA]
  · simp [getUserKgEmbedOne, lookup, hE, bind_ok_eq, pure_ok_eq, eDiv,
      List.map_replicate]

theorem user_kg_embed_lookup_witness :
    dictW5 1 = none ∧ dictW5 0 = some [] ∧
      (getUserKgEmbedOne embedW5 1 1 dictW5 = .error .keyError ∧
        getUserKgEmbedOne embedW5 1 0 dictW5 = .ok (List.replicate 1 none)) :=
  ⟨rfl, rfl, user_kg_embed_lookup embedW5 1 dictW5 1 0 rfl rfl⟩

/-- C6 counterexample: user 0 has exactly one similarity neighbor (user 1),
but the two interaction sets are disjoint, so the single Jaccard weight is
0 and the final division is `0-tensor / 0`, a NaN row — not the neighbor's
KG-context embedding. -/
theorem cf_one_neighbor_counterexample :
    sdC 0 = some [1] ∧
      getUserCfEmbedOne embedC 1 0 udC sdC
        ≠ (getUserKgEmbedOne embedC 1 1 udC).map PyNum.tensor := by
  refine ⟨rfl, ?_⟩
  have h1 : getUserCfEmbedOne embedC 1 0 udC sdC = .ok (.tensor [none]) := by
    simp [getUserCfEmbedOne, lookup, udC, sdC, calkSim, getUserKgEmbedOne,
      bind_ok_eq, pure_ok_eq, pyAdd, pySMul, pyDiv, eAdd, eMul, eDiv, embedC,
      List.replicate]
    rw [if_neg (show ¬({1} ∪ {2} : Finset Nat) = ∅ by decide)]
    simp [bind_ok_eq]
  have h2 : (getUserKgEmbedOne embedC 1 1 udC).map PyNum.tensor
      = .ok (.tensor [some 7]) := by
    simp [getUserKgEmbedOne, lookup, udC, embedC, bind_ok_eq, pure_ok_eq,
      eAdd, eDiv, List.replicate, Except.map]
  rw [h1, h2]
  intro hcontra
  have := Except.ok.inj hcontra
  simp at this

/-- C6 amended: if a user has exactly one similarity neighbor and that
neighbor's interaction set shares at least one item with the user's own
set (so the single Jaccard weight is positive), the user's CF-context
embedding is exactly the neighbor's KG-context embedding: the weight is
normalized by itself to 1. -/
theorem cf_one_neighbor (embed : Nat → List (Option ℚ)) (D uid v : Nat)
    (userDict simUserDict : Nat → Option (List Nat)) (A B : List Nat)
    (hs : simUserDict uid = some [v]) (hA : userDict uid = some A)
    (hB : userDict v = some B) (hAB : A.toFinset ∩ B.toFinset ≠ ∅) :
    getUserCfEmbedOne embed D uid userDict simUserDict
      = (getUserKgEmbedOne embed D v userDict).map PyNum.tensor := by
  have hsub : A.toFinset ∩ B.toFinset ⊆ A.toFinset ∪ B.toFinset :=
    Finset.Subset.trans Finset.inter_subset_left Finset.subset_union_left
  have hUnion : (A.toFinset ∪ B.toFinset).card ≠ 0 := by
    intro h0
    rw [Finset.card_eq_zero] at h0
    rw [h0] at hsub
    exact hAB (Finset.subset_empty.mp hsub)
  have hInter : (A.toFinset ∩ B.toFinset).card ≠ 0 := by
    intro h0
    exact hAB (Finset.card_eq_zero.mp h0)
  set s : ℚ := ((A.toFinset ∩ B.toFinset).card : ℚ)
      / ((A.toFinset ∪ B.toFinset).card : ℚ) with hsdef
  have hsne : s ≠ 0 := by
    apply div_ne_zero
    · exact_mod_cast hInter
    · exact_mod_cast hUnion
  have hsim : (calkSim uid v userDict : Except PyErr ℚ) = .ok s := by
    simp only [calkSim, lookup, hA, hB, bind_ok_eq]
    rw [if_neg hUnion]
  have hkg : getUserKgEmbedOne embed D v userDict
      = .ok ((B.foldl (fun acc i => List.zipWith eAdd acc (embed i))
          (List.replicate D (some 0))).map (fun e => eDiv e (B.length : ℚ))) := by
    simp only [getUserKgEmbedOne, lookup, hB, bind_ok_eq, pure_ok_eq]
  set t := (B.foldl (fun acc i => List.zipWith eAdd acc (embed i))
      (List.replicate D (some 0))).map (fun e => eDiv e (B.length : ℚ)) with htdef
  simp only [getUserCfEmbedOne, lookup, hs, bind_ok_eq, List.foldlM_cons,
    List.foldlM_nil, hsim, hkg, pure_ok_eq]
  simp only [pySMul, pyAdd, pyDiv, zero_add, List.map_map, Except.map]
  congr 1
  congr 1
  refine map_id_of_eq _ t (fun e => ?_)
  cases e with
  | none => simp [eMul, eAdd, eDiv, hsne]
  | some a =>
      simp only [Function.comp, eMul, eAdd, eDiv, if_neg hsne, Option.map]
      rw [zero_add, mul_div_cancel_left₀ a hsne]

theorem cf_one_neighbor_witness :
    sdC 0 = some [1] ∧ udC2 0 = some [5] ∧ udC2 1 = some [5] ∧
      getUserCfEmbedOne embedC 1 0 udC2 sdC
        = (getUserKgEmbedOne embedC 1 1 udC2).map PyNum.tensor :=
  ⟨rfl, rfl, rfl,
    cf_one_neighbor embedC 1 0 1 udC2 sdC [5] [5] rfl rfl rfl (by decide)⟩

/-- C8: constructing an `Aggregator` with a scheme name outside
{gcn, graphsage, bi-interaction} fails at construction time with
`NotImplementedError` — the construction-time configuration failure — so
no aggregator exists and no forward computation can have happened. -/
theorem mk_aggregator_unknown (in_dim out_dim : Nat) (dropout : ℚ) (t : String)
    (w1 : Nat → Nat → ℚ) (b1 : Nat → ℚ) (w2 : Nat → Nat → ℚ) (b2 : Nat → ℚ)
    (h1 : t ≠ "gcn") (h2 : t ≠ "graphsage") (h3 : t ≠ "bi-interaction") :
    mkAggregator in_dim out_dim dropout t w1 b1 w2 b2
      = .error .notImplementedError := by
  simp [mkAggregator, h1, h2, h3]

theorem mk_aggregator_unknown_witness :
    ("mean" : String) ≠ "gcn" ∧
      mkAggregator 8 8 0 "mean" (fun _ _ => 0) (fun _ => 0) (fun _ _ => 0) (fun _ => 0)
        = .error .notImplementedError :=
  ⟨by decide, mk_aggregator_unknown 8 8 0 "mean" (fun _ _ => 0) (fun _ => 0)
    (fun _ _ => 0) (fun _ => 0) (by decide) (by decide) (by decide)⟩

/-- C10: `forward` called with a mode string outside
{calc_att, calc_cf_loss, calc_kg_loss, predict} falls through every branch
and returns Python `None`: no exception is raised, no branch computation is
entered, and no state is touched. -/
theorem forward_unknown_mode (M : KGATModel) (mode : String) (input : KGATIn)
    (h1 : mode ≠ "calc_att") (h2 : mode ≠ "calc_cf_loss")
    (h3 : mode ≠ "calc_kg_loss") (h4 : mode ≠ "predict") :
    forward M mode input = none := by
  simp [forward, h1, h2, h3, h4]

theorem forward_unknown_mode_witness :
    ("foo" : String) ≠ "calc_att" ∧
      forward mW "foo" (.kgLossIn [] [] [] []) = none :=
  ⟨by decide, forward_unknown_mode mW "foo" (.kgLossIn [] [] [] [])
    (by decide) (by decide) (by decide) (by decide)⟩

theorem bind_error_eq {β γ : Type} (e : PyErr) (f : β → Except PyErr γ) :
    (Except.error e >>= f : Except PyErr γ) = .error e := rfl

theorem sumRows_length (embed : Nat → List (Option ℚ)) (D : Nat)
    (hrows : ∀ n, (embed n).length = D) (items : List Nat) :
    ∀ acc : List (Option ℚ), acc.length = D →
      (items.foldl (fun acc i => List.zipWith eAdd acc (embed i)) acc).length = D := by
  induction items with
  | nil => intro acc h; exact h
  | cons i is ih =>
      intro acc h
      simp only [List.foldl_cons]
      exact ih _ (by rw [List.length_zipWith, h, hrows i, Nat.min_self])

theorem getUserKgEmbedOne_ok (embed : Nat → List (Option ℚ)) (D uid : Nat)
    (userDict : Nat → Option (List Nat)) (l : List Nat) (hl : userDict uid = some l)
    (hrows : ∀ n, (embed n).length = D) :
    ∃ t, getUserKgEmbedOne embed D uid userDict = .ok t ∧ t.length = D := by
  refine ⟨(l.foldl (fun acc i => List.zipWith eAdd acc (embed i))
      (List.replicate D (some 0))).map (fun e => eDiv e (l.length : ℚ)), ?_, ?_⟩
  · simp only [getUserKgEmbedOne, lookup, hl, bind_ok_eq, pure_ok_eq]
  · rw [List.length_map]
    exact sumRows_length embed D hrows l _ (List.length_replicate D (some 0))

theorem calkSim_ok (idx w : Nat) (dict : Nat → Option (List Nat)) (lA lB : List Nat)
    (hA : dict idx = some lA) (hB : dict w = some lB) (hAne : lA ≠ []) :
    (calkSim idx w dict : Except PyErr ℚ) = .ok (simVal idx w dict) := by
  have hU : (lA.toFinset ∪ lB.toFinset).card ≠ 0 := by
    intro h0
    rw [Finset.card_eq_zero, Finset.union_eq_empty] at h0
    have h1 := h0.1
    cases lA with
    | nil => exact hAne rfl
    | cons a as => simp at h1
  simp only [calkSim, lookup, hA, hB, bind_ok_eq]
  rw [if_neg hU]
  simp only [simVal, hA, hB, Option.getD_some]

theorem cfFoldU_ok (embed : Nat → List (Option ℚ)) (D uid : Nat)
    (userDict : Nat → Option (List Nat)) (lA : List Nat)
    (hA : userDict uid = some lA) (hAne : lA ≠ [])
    (hrows : ∀ n, (embed n).length = D) :
    ∀ ws : List Nat, (∀ x ∈ ws, ∃ l, userDict x = some l) →
      ∀ (t0 : List (Option ℚ)) (n0 : ℚ), t0.length = D →
      ∃ t1, ws.foldlM
          (fun (p : PyNum ℚ × ℚ) w => do
            let sim ← calkSim uid w userDict
            let kg ← getUserKgEmbedOne embed D w userDict
            pure (pyAdd p.1 (pySMul sim (PyNum.tensor kg)), p.2 + sim))
          (PyNum.tensor t0, n0)
        = .ok (PyNum.tensor t1, n0 + simSum uid ws userDict) ∧ t1.length = D := by
  intro ws
  induction ws with
  | nil =>
      intro _ t0 n0 h0
      refine ⟨t0, ?_, h0⟩
      simp [List.foldlM_nil, pure_ok_eq, simSum]
  | cons w ws ih =>
      intro hall t0 n0 h0
      obtain ⟨lw, hw⟩ := hall w (by simp)
      obtain ⟨tw, hkgw, htwlen⟩ := getUserKgEmbedOne_ok embed D w userDict lw hw hrows
      have hsw : (calkSim uid w userDict : Except PyErr ℚ) = .ok (simVal uid w userDict) :=
        calkSim_ok uid w userDict lA lw hA hw hAne
      have hacc : (pyAdd (PyNum.tensor t0)
            (pySMul (simVal uid w userDict) (PyNum.tensor tw)) : PyNum ℚ)
          = PyNum.tensor (List.zipWith eAdd t0
              (tw.map (fun e => eMul (some (simVal uid w userDict)) e))) := rfl
      have hlen1 : (List.zipWith eAdd t0
          (tw.map (fun e => eMul (some (simVal uid w userDict)) e))).length = D := by
        rw [List.length_zipWith, h0, List.length_map, htwlen, Nat.min_self]
      obtain ⟨t1, hfold, ht1⟩ := ih (fun x hx => hall x (List.mem_cons_of_mem _ hx)) _
        (n0 + simVal uid w userDict) hlen1
      simp only [pure_ok_eq] at hfold
      refine ⟨t1, ?_, ht1⟩
      simp only [List.foldlM_cons, hsw, bind_ok_eq, hkgw, pure_ok_eq]
      rw [hacc, hfold]
      have hs : (simSum uid (w :: ws) userDict : ℚ)
          = simVal uid w userDict + simSum uid ws userDict := by
        simp [simSum]
      rw [hs, add_assoc]

theorem getUserCfEmbedOne_ok (embed : Nat → List (Option ℚ)) (D uid : Nat)
    (userDict simUserDict : Nat → Option (List Nat)) (nbrs lA : List Nat)
    (hnb : simUserDict uid = some nbrs) (hnbne : nbrs ≠ [])
    (hA : userDict uid = some lA) (hAne : lA ≠ [])
    (hall : ∀ x ∈ nbrs, ∃ l, userDict x = some l)
    (hrows : ∀ n, (embed n).length = D) :
    ∃ t, getUserCfEmbedOne embed D uid userDict simUserDict = .ok (PyNum.tensor t)
      ∧ t.length = D := by
  cases nbrs with
  | nil => exact absurd rfl hnbne
  | cons w ws =>
      obtain ⟨lw, hw⟩ := hall w (by simp)
      obtain ⟨tw, hkgw, htwlen⟩ := getUserKgEmbedOne_ok embed D w userDict lw hw hrows
      have hsw : (calkSim uid w userDict : Except PyErr ℚ) = .ok (simVal uid w userDict) :=
        calkSim_ok uid w userDict lA lw hA hw hAne
      have hacc : (pyAdd (PyNum.scalar 0)
            (pySMul (simVal uid w userDict) (PyNum.tensor tw)) : PyNum ℚ)
          = PyNum.tensor ((tw.map (fun e => eMul (some (simVal uid w userDict)) e)).map
              (fun e => eAdd (some 0) e)) := rfl
      have hlen1 : ((tw.map (fun e => eMul (some (simVal uid w userDict)) e)).map
          (fun e => eAdd (some 0) e)).length = D := by
        rw [List.length_map, List.length_map]; exact htwlen
      obtain ⟨t1, hfold, ht1⟩ := cfFoldU_ok embed D uid userDict lA hA hAne hrows ws
        (fun x hx => hall x (List.mem_cons_of_mem _ hx)) _
        (0 + simVal uid w userDict) hlen1
      simp only [pure_ok_eq] at hfold
      refine ⟨t1.map (fun e => eDiv e
          (0 + simVal uid w userDict + simSum uid ws userDict)), ?_,
        by rw [List.length_map]; exact ht1⟩
      simp only [getUserCfEmbedOne, lookup, hnb, bind_ok_eq, List.foldlM_cons, hsw,
        hkgw, pure_ok_eq]
      rw [hacc, hfold, bind_ok_eq]
      rfl

theorem cfFoldI_ok (embed : Nat → List (Option ℚ)) (D iid : Nat)
    (itemDict : Nat → Option (List Nat)) (lA : List Nat)
    (hA : itemDict iid = some lA) (hAne : lA ≠ [])
    (hrows : ∀ n, (embed n).length = D) :
    ∀ ws : List Nat, (∀ x ∈ ws, ∃ l, itemDict x = some l) →
      ∀ (t0 : List (Option ℚ)) (n0 : ℚ), t0.length = D →
      ∃ t1, ws.foldlM
          (fun (p : PyNum ℚ × ℚ) w => do
            let sim ← calkSim iid w itemDict
            pure (pyAdd p.1 (pySMul sim (PyNum.tensor (embed w))), p.2 + sim))
          (PyNum.tensor t0, n0)
        = .ok (PyNum.tensor t1, n0 + simSum iid ws itemDict) ∧ t1.length = D := by
  intro ws
  induction ws with
  | nil =>
      intro _ t0 n0 h0
      refine ⟨t0, ?_, h0⟩
      simp [List.foldlM_nil, pure_ok_eq, simSum]
  | cons w ws ih =>
      intro hall t0 n0 h0
      obtain ⟨lw, hw⟩ := hall w (by simp)
      have hsw : (calkSim iid w itemDict : Except PyErr ℚ) = .ok (simVal iid w itemDict) :=
        calkSim_ok iid w itemDict lA lw hA hw hAne
      have hacc : (pyAdd (PyNum.tensor t0)
            (pySMul (simVal iid w itemDict) (PyNum.tensor (embed w))) : PyNum ℚ)
          = PyNum.tensor (List.zipWith eAdd t0
              ((embed w).map (fun e => eMul (some (simVal iid w itemDict)) e))) := rfl
      have hlen1 : (List.zipWith eAdd t0
          ((embed w).map (fun e => eMul (some (simVal iid w itemDict)) e))).length = D := by
        rw [List.length_zipWith, h0, List.length_map, hrows w, Nat.min_self]
      obtain ⟨t1, hfold, ht1⟩ := ih (fun x hx => hall x (List.mem_cons_of_mem _ hx)) _
        (n0 + simVal iid w itemDict) hlen1
      simp only [pure_ok_eq] at hfold
      refine ⟨t1, ?_, ht1⟩
      simp only [List.foldlM_cons, hsw, bind_ok_eq, pure_ok_eq]
      rw [hacc, hfold]
      have hs : (simSum iid (w :: ws) itemDict : ℚ)
          = simVal iid w itemDict + simSum iid ws itemDict := by
        simp [simSum]
      rw [hs, add_assoc]

theorem getItemCfEmbedOne_ok (embed : Nat → List (Option ℚ)) (D iid : Nat)
    (itemDict simItemDict : Nat → Option (List Nat)) (nbrs lA : List Nat)
    (hnb : simItemDict iid = some nbrs) (hnbne : nbrs ≠ [])
    (hA : itemDict iid = some lA) (hAne : lA ≠ [])
    (hall : ∀ x ∈ nbrs, ∃ l, itemDict x = some l)
    (hrows : ∀ n, (embed n).length = D) :
    ∃ t, getItemCfEmbedOne embed iid itemDict simItemDict = .ok (PyNum.tensor t)
      ∧ t.length = D := by
  cases nbrs with
  | nil => exact absurd rfl hnbne
  | cons w ws =>
      obtain ⟨lw, hw⟩ := hall w (by simp)
      have hsw : (calkSim iid w itemDict : Except PyErr ℚ) = .ok (simVal iid w itemDict) :=
        calkSim_ok iid w itemDict lA lw hA hw hAne
      have hacc : (pyAdd (PyNum.scalar 0)
            (pySMul (simVal iid w itemDict) (PyNum.tensor (embed w))) : PyNum ℚ)
          = PyNum.tensor (((embed w).map (fun e => eMul (some (simVal iid w itemDict)) e)).map
              (fun e => eAdd (some 0) e)) := rfl
      have hlen1 : (((embed w).map (fun e => eMul (some (simVal iid w itemDict)) e)).map
          (fun e => eAdd (some 0) e)).length = D := by
        rw [List.length_map, List.length_map]; exact hrows w
      obtain ⟨t1, hfold, ht1⟩ := cfFoldI_ok embed D iid itemDict lA hA hAne hrows ws
        (fun x hx => hall x (List.mem_cons_of_mem _ hx)) _
        (0 + simVal iid w itemDict) hlen1
      simp only [pure_ok_eq] at hfold
      refine ⟨t1.map (fun e => eDiv e
          (0 + simVal iid w itemDict + simSum iid ws itemDict)), ?_,
        by rw [List.length_map]; exact ht1⟩
      simp only [getItemCfEmbedOne, lookup, hnb, bind_ok_eq, List.foldlM_cons, hsw,
        pure_ok_eq]
      rw [hacc, hfold, bind_ok_eq]
      rfl

theorem linearNB_ok (inD outD : Nat) (W : Nat → Nat → ℚ) (x : List (Option ℚ))
    (hx : x.length = inD) :
    ∃ y, linearNB inD outD W x = .ok y ∧ y.length = outD := by
  refine ⟨(List.range outD).map (fun i =>
    sumEntries ((List.range inD).map (fun j => eMul (some (W i j)) (x.getD j none)))),
    ?_, ?_⟩
  · simp only [linearNB, if_pos hx]
  · rw [List.length_map, List.length_range]

theorem encApply_of_len (E : TwoLayerEnc ℚ) (x : List (Option ℚ))
    (hx : x.length = 176 * 2) :
    ∃ y, encApply E x = .ok y ∧ y.length = 176 := by
  obtain ⟨y1, hy1, hl1⟩ := linearNB_ok (176 * 2) 176 E.W1 x hx
  have hrel : (reluT y1).length = 176 := by rw [reluT, List.length_map, hl1]
  obtain ⟨y2, hy2, hl2⟩ := linearNB_ok 176 176 E.W2 (reluT y1) hrel
  refine ⟨reluT y2, ?_, by rw [reluT, List.length_map, hl2]⟩
  simp only [encApply, hy1, bind_ok_eq, hy2, pure_ok_eq]

theorem encApply_of_ne (E : TwoLayerEnc ℚ) (x : List (Option ℚ))
    (hx : ¬x.length = 176 * 2) : encApply E x = .error .shapeError := by
  simp only [encApply, linearNB, if_neg hx, bind_error_eq]

/-- C9: the fusion encoders have input width fixed at 352 = 176*2 and
output width 176 by the literals in `KGAT.__init__`, independent of the
configured dimensions; hence, on well-formed dictionaries, `get_user_embed`
and `get_item_embed` succeed exactly when the multi-scale embedding rows
have width 176, and the fused rows they return always have width 176. -/
theorem encoder_dims (embed : Nat → List (Option ℚ)) (D : Nat)
    (Eu Ei : TwoLayerEnc ℚ) (uid iid : Nat)
    (userDict simUserDict itemDict simItemDict : Nat → Option (List Nat))
    (lA unbrs li inbrs : List Nat)
    (hrows : ∀ n, (embed n).length = D)
    (hA : userDict uid = some lA) (hAne : lA ≠ [])
    (hun : simUserDict uid = some unbrs) (hunne : unbrs ≠ [])
    (huall : ∀ x ∈ unbrs, ∃ l, userDict x = some l)
    (hi : itemDict iid = some li) (hine : li ≠ [])
    (hin : simItemDict iid = some inbrs) (hinne : inbrs ≠ [])
    (hiall : ∀ x ∈ inbrs, ∃ l, itemDict x = some l) :
    ((∃ ys, getUserEmbed embed D [uid] userDict simUserDict Eu = .ok ys) ↔ D = 176) ∧
      ((∃ ys, getItemEmbed embed [iid] simItemDict itemDict Ei = .ok ys) ↔ D = 176) ∧
      (∀ ys, getUserEmbed embed D [uid] userDict simUserDict Eu = .ok ys →
        ∀ y ∈ ys, y.length = 176) ∧
      (∀ ys, getItemEmbed embed [iid] simItemDict itemDict Ei = .ok ys →
        ∀ y ∈ ys, y.length = 176) := by
  obtain ⟨tk, hkg, htk⟩ := getUserKgEmbedOne_ok embed D uid userDict lA hA hrows
  obtain ⟨tc, hcf, htc⟩ := getUserCfEmbedOne_ok embed D uid userDict simUserDict
    unbrs lA hun hunne hA hAne huall hrows
  obtain ⟨tci, hcfi, htci⟩ := getItemCfEmbedOne_ok embed D iid itemDict simItemDict
    inbrs li hin hinne hi hine hiall hrows
  have hue : getUserEmbed embed D [uid] userDict simUserDict Eu
      = (encApply Eu (tk ++ tc)) >>= (fun y => pure [y]) := by
    simp only [getUserEmbed, getUserKgEmbed, getUserCfEmbed, List.mapM_cons,
      List.mapM_nil, hkg, hcf, bind_ok_eq, pure_ok_eq, List.zip_cons_cons,
      List.zip_nil_right, catLast]
  have hie : getItemEmbed embed [iid] simItemDict itemDict Ei
      = (encApply Ei (embed iid ++ tci)) >>= (fun y => pure [y]) := by
    simp only [getItemEmbed, List.map_cons, List.map_nil, List.mapM_cons,
      List.mapM_nil, hcfi, bind_ok_eq, pure_ok_eq, List.zip_cons_cons,
      List.zip_nil_right, catLast]
  have hulen : (tk ++ tc).length = D + D := by
    rw [List.length_append, htk, htc]
  have hilen : (embed iid ++ tci).length = D + D := by
    rw [List.length_append, hrows iid, htci]
  by_cases hD : D = 176
  · subst hD
    obtain ⟨yu, hyu, hyulen⟩ := encApply_of_len Eu (tk ++ tc) (by rw [hulen])
    obtain ⟨yi, hyi, hyilen⟩ := encApply_of_len Ei (embed iid ++ tci) (by rw [hilen])
    have hueq : getUserEmbed embed 176 [uid] userDict simUserDict Eu = .ok [yu] := by
      rw [hue, hyu, bind_ok_eq, pure_ok_eq]
    have hieq : getItemEmbed embed [iid] simItemDict itemDict Ei = .ok [yi] := by
      rw [hie, hyi, bind_ok_eq, pure_ok_eq]
    refine ⟨⟨fun _ => rfl, fun _ => ⟨[yu], hueq⟩⟩, ⟨fun _ => rfl, fun _ => ⟨[yi], hieq⟩⟩,
      ?_, ?_⟩
    · intro ys hys y hy
      rw [hueq] at hys
      have := Except.ok.inj hys
      subst this
      rw [List.mem_singleton] at hy
      subst hy
      exact hyulen
    · intro ys hys y hy
      rw [hieq] at hys
      have := Except.ok.inj hys
      subst this
      rw [List.mem_singleton] at hy
      subst hy
      exact hyilen
  · have hu2 : ¬(tk ++ tc).length = 176 * 2 := by rw [hulen]; omega
    have hi2 : ¬(embed iid ++ tci).length = 176 * 2 := by rw [hilen]; omega
    have huerr : getUserEmbed embed D [uid] userDict simUserDict Eu
        = .error .shapeError := by
      rw [hue, encApply_of_ne Eu _ hu2, bind_error_eq]
    have hierr : getItemEmbed embed [iid] simItemDict itemDict Ei
        = .error .shapeError := by
      rw [hie, encApply_of_ne Ei _ hi2, bind_error_eq]
    refine ⟨⟨fun hex => ?_, fun h => absurd h hD⟩, ⟨fun hex => ?_, fun h => absurd h hD⟩,
      ?_, ?_⟩
    · obtain ⟨ys, hys⟩ := hex
      rw [huerr] at hys
      exact absurd hys (by simp)
    · obtain ⟨ys, hys⟩ := hex
      rw [hierr] at hys
      exact absurd hys (by simp)
    · intro ys hys
      rw [huerr] at hys
      exact absurd hys (by simp)
    · intro ys hys
      rw [hierr] at hys
      exact absurd hys (by simp)

theorem encoder_dims_witness :
    udN 0 = some [3] ∧ sdN 0 = some [1] ∧
      okBool (getUserEmbed embedN 176 [0] udN sdN encW) = true ∧
      okBool (getItemEmbed embedN [0] sdN udN encW) = true := by
  have h := encoder_dims embedN 176 encW encW 0 0 udN sdN udN sdN [3] [1] [3] [1]
    (fun n => List.length_replicate 176 (some 1)) rfl (by decide) rfl (by decide)
    (by
      intro x hx
      rw [List.mem_singleton] at hx
      subst hx
      exact ⟨[3], rfl⟩)
    rfl (by decide) rfl (by decide)
    (by
      intro x hx
      rw [List.mem_singleton] at hx
      subst hx
      exact ⟨[3], rfl⟩)
  obtain ⟨ys, hys⟩ := h.1.mpr rfl
  obtain ⟨zs, hzs⟩ := h.2.1.mpr rfl
  exact ⟨rfl, rfl, by rw [hys]; rfl, by rw [hzs]; rfl⟩

end KGAT
